import Mathlib

/-!
Shallow embedding of the plotters font subsystem
(`src/style/font/font_desc.rs` and `src/style/font/ttf.rs`).

Modelling conventions:
* Rust `i32` values are modelled as `Int`; no intermediate operation here can
  overflow 32 bits, so no wrap-around modelling is needed.  The `i32::MAX`
  sentinel used by `estimate_layout` is the explicit constant `i32MAX`.
* Rust `f64`/`f32` values (`size`, anti-aliasing coverage) are opaque to every
  algorithm in this module: they are only passed through to the external
  shaping primitive or to the caller's callback.  They are modelled as `ℚ`.
* The external rusttype shaping primitive (`Font::layout` plus per-glyph
  `pixel_bounding_box` and `draw`) is modelled as a function from a size and a
  text to a list of glyphs, each carrying an optional pixel bounding box and a
  list of coverage samples `(x, y, v)` with `x y : Nat` (rusttype delivers
  `u32` coordinates relative to the glyph's bounding box).
* The caller's `FnMut` draw callback is modelled as a state-passing function
  `σ → Int → Int → ℚ → σ × Except E Unit`; `draw` additionally returns the
  trace of the callback invocations it performed, so that claims about which
  invocations happen are statable.
-/

/-- Error type of the font implementation (`FontError` in `ttf.rs`).
The `Arc<rusttype::Error>` payload of `FontLoadError` is modelled as a
string description. -/
inductive FontError where
  | LockError : FontError
  | NoSuchFont : FontError
  | FontLoadError : String → FontError
deriving DecidableEq, Repr

/-- Embeds `FontTransform` from `font_desc.rs`: one of four axis-aligned rotations. -/
inductive FontTransform where
  | None : FontTransform
  | Rotate90 : FontTransform
  | Rotate180 : FontTransform
  | Rotate270 : FontTransform
deriving DecidableEq, Repr

/-- Embeds `LayoutBox`: pair of 2D integer points `(min, max)`. -/
abbrev LayoutBox := (Int × Int) × (Int × Int)

/-- Embeds `FontTransform::offset`: offset of the "top-left" corner of the text
(`font_desc.rs` lines 24-31). -/
def FontTransform.offset (t : FontTransform) (layout : LayoutBox) : Int × Int :=
  match t with
  | FontTransform.None => (0, 0)
  | FontTransform.Rotate90 => (layout.2.2 - layout.1.2, 0)
  | FontTransform.Rotate180 => (layout.2.1 - layout.1.1, layout.2.2 - layout.1.2)
  | FontTransform.Rotate270 => (0, layout.2.1 - layout.1.1)

/-- Embeds `FontTransform::transform`: coordinate rotation (`font_desc.rs` lines 34-41). -/
def FontTransform.transform (t : FontTransform) (x y : Int) : Int × Int :=
  match t with
  | FontTransform.None => (x, y)
  | FontTransform.Rotate90 => (-y, x)
  | FontTransform.Rotate180 => (-x, -y)
  | FontTransform.Rotate270 => (y, -x)

/-- Embeds `FontFamily` from `font_desc.rs`; `Name` holds the borrowed family string. -/
inductive FontFamily where
  | Sans : FontFamily
  | SansSerif : FontFamily
  | Monospace : FontFamily
  | Name : String → FontFamily
deriving DecidableEq, Repr

/-- Embeds `FontFamily::as_str` (`font_desc.rs` lines 62-71). -/
def FontFamily.as_str : FontFamily → String
  | FontFamily.Sans => "sans"
  | FontFamily.SansSerif => "sans-serif"
  | FontFamily.Monospace => "monospace"
  | FontFamily.Name face => face

/-- Embeds `impl From<&str> for FontFamily` (`font_desc.rs` lines 73-82); the Rust
string match is an equality chain. -/
def FontFamily.fromStr (s : String) : FontFamily :=
  if s = "sans" then FontFamily.Sans
  else if s = "sans-serif" then FontFamily.SansSerif
  else if s = "monospace" then FontFamily.Monospace
  else FontFamily.Name s

/-- A pixel bounding box as reported by rusttype `pixel_bounding_box`. -/
structure Rect where
  minx : Int
  miny : Int
  maxx : Int
  maxy : Int
deriving DecidableEq, Repr

/-- One shaped glyph as exposed by the external shaping primitive: an optional
pixel bounding box and the coverage samples its `draw` routine would emit,
in emission order.  Sample coordinates are the `u32` pair rusttype hands to
the closure, relative to the bounding box. -/
structure Glyph where
  pbb : Option Rect
  pixels : List (Nat × Nat × ℚ)

/-- The external shaping primitive: `Font::layout` at a scale over a text,
producing shaped glyphs in order.  A black box to this module. -/
def Font := ℚ → String → List Glyph

/-- Embeds `FontDataInternal` from `ttf.rs`: a handle to a loaded font. -/
structure FontDataInternal where
  font : Font

/-- The `i32::MAX` sentinel used by `estimate_layout`. -/
def i32MAX : Int := 2147483647

/-- One step of the min/max accumulation in `estimate_layout`
(`ttf.rs` lines 134-141): glyphs without ink leave the box unchanged. -/
def layoutStep (acc : LayoutBox) (g : Glyph) : LayoutBox :=
  match g.pbb with
  | some rect =>
      ((min acc.1.1 rect.minx, min acc.1.2 rect.miny),
       (max acc.2.1 rect.maxx, max acc.2.2 rect.maxy))
  | none => acc

/-- Embeds `FontDataInternal::estimate_layout` (`ttf.rs` lines 126-148): accumulate
pixel bounding boxes starting from `((i32MAX, i32MAX), (0, 0))`; if either
minimum is still the sentinel, return the degenerate box. -/
def FontDataInternal.estimate_layout (fd : FontDataInternal) (size : ℚ)
    (text : String) : Except FontError LayoutBox :=
  let box := (fd.font size text).foldl layoutStep ((i32MAX, i32MAX), (0, 0))
  if box.1.1 = i32MAX ∨ box.1.2 = i32MAX then Except.ok ((0, 0), (0, 0))
  else Except.ok box

/-- Whether a result is `Ok` (Rust `Result::is_ok`). -/
def is_ok {E A : Type} : Except E A → Bool
  | Except.ok _ => true
  | Except.error _ => false

/-- A record of one callback invocation performed by `draw`: the coordinates
and coverage passed in, and the result the callback returned. -/
structure CallEntry (E : Type) where
  x : Int
  y : Int
  cov : ℚ
  outcome : Except E Unit

/-- The per-pixel closure body of `FontDataInternal::draw`
(`ttf.rs` lines 172-177): rotate the glyph-relative coordinate, and when both
final coordinates are non-negative and no failure has been recorded, invoke
the callback, record its result, and append the invocation to the trace. -/
def drawPixelStep {σ E : Type} (f : σ → Int → Int → ℚ → σ × Except E Unit)
    (trans : FontTransform) (base_x base_y x0 y0 : Int)
    (st : σ × Except E Unit × List (CallEntry E)) (p : Nat × Nat × ℚ) :
    σ × Except E Unit × List (CallEntry E) :=
  let t := trans.transform ((p.1 : Int) + x0) ((p.2.1 : Int) + y0)
  if 0 ≤ t.1 + base_x ∧ 0 ≤ t.2 + base_y ∧ is_ok st.2.1 = true then
    let out := f st.1 (t.1 + base_x) (t.2 + base_y) p.2.2
    (out.1, out.2, st.2.2 ++ [⟨t.1 + base_x, t.2 + base_y, p.2.2, out.2⟩])
  else st

/-- The per-glyph loop body of `FontDataInternal::draw` (`ttf.rs` lines
168-179): glyphs without a pixel bounding box are skipped; otherwise every
coverage sample is processed relative to `(rect.min.x, rect.min.y - layout.min.y)`. -/
def drawGlyph {σ E : Type} (f : σ → Int → Int → ℚ → σ × Except E Unit)
    (trans : FontTransform) (base_x base_y : Int) (layout : LayoutBox)
    (st : σ × Except E Unit × List (CallEntry E)) (g : Glyph) :
    σ × Except E Unit × List (CallEntry E) :=
  match g.pbb with
  | none => st
  | some rect =>
      g.pixels.foldl
        (drawPixelStep f trans base_x base_y rect.minx (rect.miny - layout.1.2)) st

/-- Embeds `FontDataInternal::draw` (`ttf.rs` lines 150-181), instrumented: besides
the inner callback result it returns the trace of callback invocations, and
the `FnMut` callback is modelled state-passing, starting from `s0`. -/
def FontDataInternal.draw {σ E : Type} (fd : FontDataInternal)
    (origin : Int × Int) (size : ℚ) (text : String) (trans : FontTransform)
    (f : σ → Int → Int → ℚ → σ × Except E Unit) (s0 : σ) :
    Except FontError (Except E Unit × List (CallEntry E)) :=
  match fd.estimate_layout size text with
  | Except.error e => Except.error e
  | Except.ok layout =>
      let base_x := origin.1 + (trans.offset layout).1
      let base_y := origin.2 + (trans.offset layout).2
      let final := (fd.font size text).foldl
        (drawGlyph f trans base_x base_y layout) (s0, Except.ok (), [])
      Except.ok (final.2.1, final.2.2)

/-- Embeds `FontDesc` from `font_desc.rs` lines 46-51. -/
structure FontDesc where
  size : ℚ
  family : FontFamily
  data : Except FontError FontDataInternal
  transform : FontTransform

/-- Embeds `FontDesc::new` (`font_desc.rs` lines 120-127).  The call
`FontDataInternal::new(family)` resolves the family through the process-wide
font cache; that resolution collaborator is passed in as `resolve`.  The
constructor itself is total: a failed resolution is stored, not raised. -/
def FontDesc.new (resolve : FontFamily → Except FontError FontDataInternal)
    (family : FontFamily) (size : ℚ) : FontDesc :=
  { size := size
    family := family
    data := resolve family
    transform := FontTransform.None }

/-- Embeds `FontDesc::resize` (`font_desc.rs` lines 130-137): copy with a new size,
cloning the stored resolution result and transform. -/
def FontDesc.resize (d : FontDesc) (size : ℚ) : FontDesc :=
  { size := size
    family := d.family
    data := d.data
    transform := d.transform }

/-- Embeds `FontDesc::get_transform` (`font_desc.rs` lines 150-152). -/
def FontDesc.get_transform (d : FontDesc) : FontTransform :=
  d.transform

/-- Embeds `FontDesc::layout_box` (`font_desc.rs` lines 173-178): replay a stored
resolution error, otherwise delegate to `estimate_layout` at the stored size. -/
def FontDesc.layout_box (d : FontDesc) (text : String) :
    Except FontError LayoutBox :=
  match d.data with
  | Except.ok font => font.estimate_layout d.size text
  | Except.error e => Except.error e

/-- Embeds `FontDesc::box_size` (`font_desc.rs` lines 183-187): transform the layout
box extents and return their absolute values as unsigned magnitudes. -/
def FontDesc.box_size (d : FontDesc) (text : String) :
    Except FontError (Nat × Nat) :=
  match d.layout_box text with
  | Except.error e => Except.error e
  | Except.ok box =>
      let wh := d.get_transform.transform (box.2.1 - box.1.1) (box.2.2 - box.1.2)
      Except.ok (wh.1.natAbs, wh.2.natAbs)

/-- Embeds `FontDesc::draw` (`font_desc.rs` lines 190-200): replay a stored
resolution error, otherwise delegate to the engine with the stored size and
transform. -/
def FontDesc.draw {σ E : Type} (d : FontDesc) (text : String)
    (origin : Int × Int) (f : σ → Int → Int → ℚ → σ × Except E Unit)
    (s0 : σ) : Except FontError (Except E Unit × List (CallEntry E)) :=
  match d.data with
  | Except.ok font => font.draw origin d.size text d.get_transform f s0
  | Except.error e => Except.error e

/-- State of the process-wide font cache (`FONT_DATA_CACHE` in `ttf.rs`):
the mapping from family names to loaded fonts, plus whether the mutex can
currently be acquired (a poisoned lock makes `lock()` fail). -/
structure FontCacheState where
  lock_ok : Bool
  cache : List (String × FontDataInternal)

/-- Embeds `clear_font_cache` (`ttf.rs` lines 109-114): when the lock is acquired the
mapping is replaced by an empty one; in every case the function then returns
`Err(FontError::LockError)`. -/
def clear_font_cache (st : FontCacheState) :
    FontCacheState × Except FontError Unit :=
  (if st.lock_ok then { st with cache := [] } else st,
   Except.error FontError.LockError)

/-! Helper lemmas about the layout fold. -/

/-- A fold over glyphs none of which has ink leaves the accumulator unchanged. -/
theorem layout_foldl_no_ink (l : List Glyph) (acc : LayoutBox)
    (h : ∀ g ∈ l, g.pbb = none) : l.foldl layoutStep acc = acc := by
  induction l generalizing acc with
  | nil => rfl
  | cons g gs ih =>
      have hg : g.pbb = none := h g (List.mem_cons_self g gs)
      have hstep : layoutStep acc g = acc := by simp [layoutStep, hg]
      rw [List.foldl_cons, hstep]
      exact ih acc (fun g' hg' => h g' (List.mem_cons_of_mem _ hg'))

/-- The layout fold only ever increases the two maxima. -/
theorem layout_foldl_max_le (l : List Glyph) (acc : LayoutBox) :
    acc.2.1 ≤ (l.foldl layoutStep acc).2.1 ∧
    acc.2.2 ≤ (l.foldl layoutStep acc).2.2 := by
  induction l generalizing acc with
  | nil => exact ⟨le_refl _, le_refl _⟩
  | cons g gs ih =>
      rw [List.foldl_cons]
      refine ⟨le_trans ?_ (ih (layoutStep acc g)).1,
              le_trans ?_ (ih (layoutStep acc g)).2⟩ <;>
        cases hg : g.pbb <;> simp [layoutStep, hg]

/-- The layout fold only ever decreases the two minima. -/
theorem layout_foldl_le_min (l : List Glyph) (acc : LayoutBox) :
    (l.foldl layoutStep acc).1.1 ≤ acc.1.1 ∧
    (l.foldl layoutStep acc).1.2 ≤ acc.1.2 := by
  induction l generalizing acc with
  | nil => exact ⟨le_refl _, le_refl _⟩
  | cons g gs ih =>
      rw [List.foldl_cons]
      refine ⟨le_trans (ih (layoutStep acc g)).1 ?_,
              le_trans (ih (layoutStep acc g)).2 ?_⟩ <;>
        cases hg : g.pbb <;> simp [layoutStep, hg]

/-- Every inked glyph of the list bounds the layout fold's result. -/
theorem layout_foldl_mem_bounds (l : List Glyph) (acc : LayoutBox)
    (g : Glyph) (hg : g ∈ l) (r : Rect) (hr : g.pbb = some r) :
    (l.foldl layoutStep acc).1.1 ≤ r.minx ∧
    (l.foldl layoutStep acc).1.2 ≤ r.miny ∧
    r.maxx ≤ (l.foldl layoutStep acc).2.1 ∧
    r.maxy ≤ (l.foldl layoutStep acc).2.2 := by
  induction l generalizing acc with
  | nil => cases hg
  | cons a as ih =>
      rw [List.foldl_cons]
      rcases List.mem_cons.mp hg with rfl | hmem
      · have h1 : (layoutStep acc g).1.1 ≤ r.minx := by simp [layoutStep, hr]
        have h2 : (layoutStep acc g).1.2 ≤ r.miny := by simp [layoutStep, hr]
        have h3 : r.maxx ≤ (layoutStep acc g).2.1 := by simp [layoutStep, hr]
        have h4 : r.maxy ≤ (layoutStep acc g).2.2 := by simp [layoutStep, hr]
        exact ⟨le_trans (layout_foldl_le_min as (layoutStep acc g)).1 h1,
               le_trans (layout_foldl_le_min as (layoutStep acc g)).2 h2,
               le_trans h3 (layout_foldl_max_le as (layoutStep acc g)).1,
               le_trans h4 (layout_foldl_max_le as (layoutStep acc g)).2⟩
      · exact ih (layoutStep acc a) hmem

/-- C6: the transform's coordinate map is the identity for None,
(x,y) to (-y,x) for Rotate90, (x,y) to (-x,-y) for Rotate180, (x,y) to (y,-x)
for Rotate270; and its offset is (0,0) for None, (height,0) for Rotate90,
(width,height) for Rotate180, (0,width) for Rotate270, where
width = max.x - min.x and height = max.y - min.y of the layout box. -/
theorem transform_offset_spec (x y : Int) (box : LayoutBox) :
    FontTransform.None.transform x y = (x, y) ∧
    FontTransform.Rotate90.transform x y = (-y, x) ∧
    FontTransform.Rotate180.transform x y = (-x, -y) ∧
    FontTransform.Rotate270.transform x y = (y, -x) ∧
    FontTransform.None.offset box = (0, 0) ∧
    FontTransform.Rotate90.offset box = (box.2.2 - box.1.2, 0) ∧
    FontTransform.Rotate180.offset box = (box.2.1 - box.1.1, box.2.2 - box.1.2) ∧
    FontTransform.Rotate270.offset box = (0, box.2.1 - box.1.1) :=
  ⟨rfl, rfl, rfl, rfl, rfl, rfl, rfl, rfl⟩

/-- C7: resizing a descriptor and resizing back to the original size yields a
descriptor whose layout results equal the original's; the resized copy shares
the stored resolution result and transform (no re-resolution). -/
theorem resize_roundtrip_layout (d : FontDesc) (s' : ℚ) (text : String) :
    ((d.resize s').resize d.size).layout_box text = d.layout_box text ∧
    (d.resize s').data = d.data ∧
    (d.resize s').transform = d.transform :=
  ⟨rfl, rfl, rfl⟩

/-- C8 counterexample: the claimed round-trip fails in one direction: the
family value built from the name "sans" is the `Sans` variant, not
`Name "sans"`, so `fromStr (f.as_str)` differs from `f` at
`f = FontFamily.Name "sans"`. -/
theorem family_roundtrip_counterexample :
    FontFamily.fromStr (FontFamily.Name "sans").as_str ≠
      FontFamily.Name "sans" := by
  simp [FontFamily.fromStr, FontFamily.as_str]

/-- C8 amended: for every string s, `fromStr s` converts back to s via
`as_str`; conversely `fromStr (f.as_str) = f` for every family value except a
`Name` holding one of the three reserved canonical names "sans",
"sans-serif", "monospace" (those parse back to the dedicated variant). -/
theorem family_roundtrip_amended :
    (∀ s : String, (FontFamily.fromStr s).as_str = s) ∧
    (∀ f : FontFamily,
      (∀ t, f = FontFamily.Name t →
        t ≠ "sans" ∧ t ≠ "sans-serif" ∧ t ≠ "monospace") →
      FontFamily.fromStr f.as_str = f) := by
  constructor
  · intro s
    unfold FontFamily.fromStr
    split_ifs with h1 h2 h3
    · simp [FontFamily.as_str, h1]
    · simp [FontFamily.as_str, h2]
    · simp [FontFamily.as_str, h3]
    · simp [FontFamily.as_str]
  · intro f hf
    cases f with
    | Sans => simp [FontFamily.as_str, FontFamily.fromStr]
    | SansSerif => simp [FontFamily.as_str, FontFamily.fromStr]
    | Monospace => simp [FontFamily.as_str, FontFamily.fromStr]
    | Name t =>
        obtain ⟨h1, h2, h3⟩ := hf t rfl
        simp [FontFamily.as_str, FontFamily.fromStr, h1, h2, h3]

/-- Witness for the amended C8 at a non-reserved name and at "sans". -/
theorem family_roundtrip_amended_witness :
    FontFamily.fromStr (FontFamily.Name "arial").as_str =
      FontFamily.Name "arial" ∧
    (FontFamily.fromStr "sans").as_str = "sans" :=
  ⟨family_roundtrip_amended.2 (FontFamily.Name "arial")
      (fun t ht => by
        injection ht with h
        subst h
        exact ⟨by decide, by decide, by decide⟩),
   family_roundtrip_amended.1 "sans"⟩

/-- C9: the cache clear operation always returns the lock-failure error:
when the lock is acquired it replaces the mapping with an empty one, and in
every case the returned result is `Err(LockError)`, never success. -/
theorem clear_font_cache_never_ok (st : FontCacheState) :
    (clear_font_cache st).2 = Except.error FontError.LockError ∧
    (st.lock_ok = true → (clear_font_cache st).1.cache = []) ∧
    ∀ u : Unit, (clear_font_cache st).2 ≠ Except.ok u := by
  refine ⟨rfl, ?_, ?_⟩
  · intro h
    simp [clear_font_cache, h]
  · intro u h
    simp [clear_font_cache] at h

/-- Witness for C9 at a concrete cache state whose lock is acquirable. -/
theorem clear_font_cache_never_ok_witness :
    (clear_font_cache ⟨true, []⟩).2 = Except.error FontError.LockError ∧
    (clear_font_cache ⟨true, []⟩).1.cache = [] :=
  ⟨(clear_font_cache_never_ok ⟨true, []⟩).1,
   (clear_font_cache_never_ok ⟨true, []⟩).2.1 rfl⟩

/-- C5: on a successfully resolved descriptor, a text none of whose glyphs
produces visible ink (in particular the empty or all-whitespace text) makes
`layout_box` return the degenerate zero-size box rather than an error. -/
theorem layout_box_no_ink_degenerate (d : FontDesc) (fd : FontDataInternal)
    (text : String) (hres : d.data = Except.ok fd)
    (hink : ∀ g ∈ fd.font d.size text, g.pbb = none) :
    d.layout_box text = Except.ok ((0, 0), (0, 0)) := by
  simp [FontDesc.layout_box, hres, FontDataInternal.estimate_layout,
        layout_foldl_no_ink _ _ hink]

/-- A font whose shaping produces no glyph at all, for concrete evaluation. -/
def emptyFont : Font := fun _ _ => []

/-- A loaded-font handle over `emptyFont`. -/
def emptyFD : FontDataInternal := ⟨emptyFont⟩

/-- A successfully resolved descriptor over `emptyFont`. -/
def descEmpty : FontDesc :=
  ⟨1, FontFamily.Sans, Except.ok emptyFD, FontTransform.None⟩

/-- Witness for C5: the empty text on a resolved descriptor yields the
degenerate box. -/
theorem layout_box_no_ink_degenerate_witness :
    descEmpty.layout_box "" = Except.ok ((0, 0), (0, 0)) :=
  layout_box_no_ink_degenerate descEmpty emptyFD ""
    rfl (fun g hg => absurd hg (List.not_mem_nil g))

/-- Absolute value of an integer difference is symmetric. -/
theorem natAbs_sub_swap (a b : Int) : (a - b).natAbs = (b - a).natAbs := by
  rw [← Int.natAbs_neg (a - b), neg_sub]

/-- C1: when `layout_box` succeeds with extents w = max.x - min.x and
h = max.y - min.y, `box_size` returns the extents swapped, as non-negative
magnitudes, for Rotate90 and Rotate270, and the extents unchanged, as
non-negative magnitudes, for None and Rotate180. -/
theorem box_size_transform_extents (d : FontDesc) (text : String)
    (bmin bmax : Int × Int)
    (h : d.layout_box text = Except.ok (bmin, bmax)) :
    ((d.transform = FontTransform.Rotate90 ∨
      d.transform = FontTransform.Rotate270) →
      d.box_size text =
        Except.ok ((bmax.2 - bmin.2).natAbs, (bmax.1 - bmin.1).natAbs)) ∧
    ((d.transform = FontTransform.None ∨
      d.transform = FontTransform.Rotate180) →
      d.box_size text =
        Except.ok ((bmax.1 - bmin.1).natAbs, (bmax.2 - bmin.2).natAbs)) := by
  constructor <;> rintro (htr | htr) <;>
    simp [FontDesc.box_size, FontDesc.get_transform, h, htr,
          FontTransform.transform, Int.natAbs_neg, natAbs_sub_swap]

/-- A one-glyph font with a fixed pixel bounding box, for concrete
evaluation: the glyph inks the box (1,2)-(4,8) and emits two samples. -/
def inkGlyph : Glyph :=
  { pbb := some ⟨1, 2, 4, 8⟩, pixels := [(0, 0, 1), (1, 1, 1)] }

/-- A font whose shaping always produces exactly `inkGlyph`. -/
def inkFont : Font := fun _ _ => [inkGlyph]

/-- A loaded-font handle over `inkFont`. -/
def inkFD : FontDataInternal := ⟨inkFont⟩

/-- A resolved descriptor over `inkFont` carrying the Rotate90 transform. -/
def descRot90 : FontDesc :=
  ⟨12, FontFamily.Sans, Except.ok inkFD, FontTransform.Rotate90⟩

/-- Witness for C1: on the one-glyph font the layout box is ((1,2),(4,8)),
so under Rotate90 the box size is the swapped extents (6, 3). -/
theorem box_size_transform_extents_witness :
    descRot90.box_size "a" = Except.ok (6, 3) :=
  (box_size_transform_extents descRot90 "a" (1, 2) (4, 8) rfl).1 (Or.inl rfl)

/-- C4: descriptor construction is total (it stores the resolution result);
when resolution failed with e, the stored data is that error and every
subsequent `layout_box`, `box_size` and `draw` call returns a clone of e. -/
theorem font_desc_error_replay {σ E : Type}
    (resolve : FontFamily → Except FontError FontDataInternal)
    (family : FontFamily) (size : ℚ) (e : FontError) (text : String)
    (origin : Int × Int) (f : σ → Int → Int → ℚ → σ × Except E Unit)
    (s0 : σ) (h : resolve family = Except.error e) :
    (FontDesc.new resolve family size).data = Except.error e ∧
    (FontDesc.new resolve family size).layout_box text = Except.error e ∧
    (FontDesc.new resolve family size).box_size text = Except.error e ∧
    (FontDesc.new resolve family size).draw text origin f s0 =
      Except.error e := by
  have hd : (FontDesc.new resolve family size).data = Except.error e := by
    simp [FontDesc.new, h]
  have hl : (FontDesc.new resolve family size).layout_box text =
      Except.error e := by
    simp [FontDesc.layout_box, hd]
  refine ⟨hd, hl, ?_, ?_⟩
  · simp [FontDesc.box_size, hl]
  · simp [FontDesc.draw, hd]

/-- A resolution collaborator that fails for every family. -/
def failResolver : FontFamily → Except FontError FontDataInternal :=
  fun _ => Except.error FontError.NoSuchFont

/-- A callback that always succeeds, with trivial state. -/
def okCB : Unit → Int → Int → ℚ → Unit × Except Unit Unit :=
  fun _ _ _ _ => ((), Except.ok ())

/-- Witness for C4: a descriptor built over the always-failing resolver
replays `NoSuchFont` from `layout_box` and from `draw`. -/
theorem font_desc_error_replay_witness :
    (FontDesc.new failResolver FontFamily.Sans 1).layout_box "" =
      Except.error FontError.NoSuchFont ∧
    (FontDesc.new failResolver FontFamily.Sans 1).draw "" (0, 0) okCB () =
      Except.error FontError.NoSuchFont :=
  ⟨(font_desc_error_replay failResolver FontFamily.Sans 1
      FontError.NoSuchFont "" (0, 0) okCB () rfl).2.1,
   (font_desc_error_replay failResolver FontFamily.Sans 1
      FontError.NoSuchFont "" (0, 0) okCB () rfl).2.2.2⟩

/-- Unfolding of `estimate_layout`: the result is either the degenerate box
(when a minimum is still the sentinel) or the accumulated fold. -/
theorem estimate_layout_cases (fd : FontDataInternal) (size : ℚ)
    (text : String) :
    fd.estimate_layout size text = Except.ok ((0, 0), (0, 0)) ∨
    (fd.estimate_layout size text =
        Except.ok ((fd.font size text).foldl layoutStep
          ((i32MAX, i32MAX), (0, 0))) ∧
      ((fd.font size text).foldl layoutStep
          ((i32MAX, i32MAX), (0, 0))).1.1 ≠ i32MAX ∧
      ((fd.font size text).foldl layoutStep
          ((i32MAX, i32MAX), (0, 0))).1.2 ≠ i32MAX) := by
  have hdef : fd.estimate_layout size text =
      (if ((fd.font size text).foldl layoutStep
            ((i32MAX, i32MAX), (0, 0))).1.1 = i32MAX ∨
          ((fd.font size text).foldl layoutStep
            ((i32MAX, i32MAX), (0, 0))).1.2 = i32MAX
       then Except.ok ((0, 0), (0, 0))
       else Except.ok ((fd.font size text).foldl layoutStep
         ((i32MAX, i32MAX), (0, 0)))) := rfl
  rw [hdef]
  split_ifs with hdeg
  · exact Or.inl rfl
  · exact Or.inr ⟨rfl, (not_or.mp hdeg).1, (not_or.mp hdeg).2⟩

/-- When the accumulated minimum moved off the sentinel, some glyph had ink. -/
theorem exists_ink_of_ne_sentinel (l : List Glyph)
    (h : (l.foldl layoutStep ((i32MAX, i32MAX), (0, 0))).1.1 ≠ i32MAX) :
    ∃ g ∈ l, ∃ r, g.pbb = some r := by
  by_contra hno
  push_neg at hno
  have hall : ∀ g ∈ l, g.pbb = none := by
    intro g hg
    cases hp : g.pbb with
    | none => rfl
    | some r => exact absurd hp (hno g hg r)
  rw [layout_foldl_no_ink l _ hall] at h
  exact h rfl

/-- C10: a successful `estimate_layout` box has non-negative maxima (they are
accumulated starting from 0), and when every glyph's pixel bounding box is
componentwise ordered, its minima do not exceed its maxima. -/
theorem estimate_layout_invariants (fd : FontDataInternal) (size : ℚ)
    (text : String) (box : LayoutBox)
    (h : fd.estimate_layout size text = Except.ok box) :
    0 ≤ box.2.1 ∧ 0 ≤ box.2.2 ∧
    ((∀ g ∈ fd.font size text, ∀ r, g.pbb = some r →
        r.minx ≤ r.maxx ∧ r.miny ≤ r.maxy) →
      box.1.1 ≤ box.2.1 ∧ box.1.2 ≤ box.2.2) := by
  rcases estimate_layout_cases fd size text with hcase | ⟨hcase, hne1, _⟩
  · rw [hcase] at h
    injection h with h
    subst h
    exact ⟨le_refl 0, le_refl 0, fun _ => ⟨le_refl 0, le_refl 0⟩⟩
  · rw [hcase] at h
    injection h with h
    subst h
    refine ⟨(layout_foldl_max_le (fd.font size text) _).1,
            (layout_foldl_max_le (fd.font size text) _).2, ?_⟩
    intro hpre
    obtain ⟨g, hg, r, hr⟩ := exists_ink_of_ne_sentinel _ hne1
    obtain ⟨hb1, hb2, hb3, hb4⟩ :=
      layout_foldl_mem_bounds (fd.font size text)
        ((i32MAX, i32MAX), (0, 0)) g hg r hr
    obtain ⟨hrx, hry⟩ := hpre g hg r hr
    exact ⟨le_trans hb1 (le_trans hrx hb3), le_trans hb2 (le_trans hry hb4)⟩

/-- Witness for C10 on the one-glyph font: the box ((1,2),(4,8)) has
non-negative maxima and ordered extents. -/
theorem estimate_layout_invariants_witness :
    (0 : Int) ≤ 4 ∧ (0 : Int) ≤ 8 ∧ ((1 : Int) ≤ 4 ∧ (2 : Int) ≤ 8) :=
  have h := estimate_layout_invariants inkFD 12 "a" ((1, 2), (4, 8)) rfl
  ⟨h.1, h.2.1, h.2.2 (fun g hg r hr => by
    have hgi : g = inkGlyph := by simpa [inkFD, inkFont] using hg
    subst hgi
    have hri : (⟨1, 2, 4, 8⟩ : Rect) = r := by
      have h' := hr
      simpa [inkGlyph] using h'
    rw [← hri]
    exact ⟨by norm_num, by norm_num⟩)⟩

/-- Fold preservation: a property preserved by each step holds of the fold. -/
theorem foldl_preserve {α β : Type} (P : β → Prop) (f : β → α → β)
    (hstep : ∀ b a, P b → P (f b a)) (l : List α) (b : β) (hb : P b) :
    P (l.foldl f b) := by
  induction l generalizing b with
  | nil => exact hb
  | cons a as ih => exact ih (f b a) (hstep b a hb)

/-- The per-glyph loop preserves any property the per-pixel step preserves. -/
theorem drawGlyph_preserve {σ E : Type}
    (P : σ × Except E Unit × List (CallEntry E) → Prop)
    (f : σ → Int → Int → ℚ → σ × Except E Unit) (trans : FontTransform)
    (base_x base_y : Int) (layout : LayoutBox)
    (hstep : ∀ x0 y0 st p,
      P st → P (drawPixelStep f trans base_x base_y x0 y0 st p))
    (st : σ × Except E Unit × List (CallEntry E)) (g : Glyph) (hst : P st) :
    P (drawGlyph f trans base_x base_y layout st g) := by
  have hdef : drawGlyph f trans base_x base_y layout st g =
      match g.pbb with
      | none => st
      | some rect =>
          g.pixels.foldl
            (drawPixelStep f trans base_x base_y rect.minx
              (rect.miny - layout.1.2)) st := rfl
  rw [hdef]
  cases g.pbb with
  | none => exact hst
  | some rect =>
      exact foldl_preserve P _ (fun b a hb => hstep _ _ b a hb) g.pixels st hst

/-- Any property of the callback-state/result/trace triple that is preserved
by the per-pixel step and holds initially holds of a successful draw's
result and trace (for some final callback state). -/
theorem draw_invariant {σ E : Type}
    (P : σ × Except E Unit × List (CallEntry E) → Prop)
    (f : σ → Int → Int → ℚ → σ × Except E Unit) (trans : FontTransform)
    (hstep : ∀ base_x base_y x0 y0 st p,
      P st → P (drawPixelStep f trans base_x base_y x0 y0 st p))
    (fd : FontDataInternal) (origin : Int × Int) (size : ℚ) (text : String)
    (s0 : σ) (hinit : P (s0, Except.ok (), []))
    (res : Except E Unit × List (CallEntry E))
    (h : fd.draw origin size text trans f s0 = Except.ok res) :
    ∃ s : σ, P (s, res) := by
  unfold FontDataInternal.draw at h
  cases hel : fd.estimate_layout size text with
  | error err => rw [hel] at h; cases h
  | ok layout =>
      rw [hel] at h
      have hfin : P ((fd.font size text).foldl
          (drawGlyph f trans (origin.1 + (trans.offset layout).1)
            (origin.2 + (trans.offset layout).2) layout)
          (s0, Except.ok (), [])) :=
        foldl_preserve P _
          (fun b a hb =>
            drawGlyph_preserve P f trans
              (origin.1 + (trans.offset layout).1)
              (origin.2 + (trans.offset layout).2) layout
              (fun x0 y0 st p hst => hstep _ _ x0 y0 st p hst) b a hb)
          (fd.font size text) _ hinit
      injection h with h
      exact ⟨((fd.font size text).foldl
          (drawGlyph f trans (origin.1 + (trans.offset layout).1)
            (origin.2 + (trans.offset layout).2) layout)
          (s0, Except.ok (), [])).1, by rw [← h]; exact hfin⟩

/-- The per-pixel step only appends invocations whose coordinates passed the
non-negativity guard. -/
theorem drawPixelStep_coords_nonneg {σ E : Type}
    (f : σ → Int → Int → ℚ → σ × Except E Unit) (trans : FontTransform)
    (base_x base_y x0 y0 : Int)
    (st : σ × Except E Unit × List (CallEntry E)) (p : Nat × Nat × ℚ)
    (hst : ∀ e ∈ st.2.2, 0 ≤ e.x ∧ 0 ≤ e.y) :
    ∀ e ∈ (drawPixelStep f trans base_x base_y x0 y0 st p).2.2,
      0 ≤ e.x ∧ 0 ≤ e.y := by
  simp only [drawPixelStep]
  split
  next hcond =>
    intro e he
    rcases List.mem_append.mp he with he | he
    · exact hst e he
    · rw [List.mem_singleton] at he
      subst he
      exact ⟨hcond.1, hcond.2.1⟩
  next => exact hst

/-- C2: a draw call never invokes the callback at a negative x or negative y:
every invocation in the trace of a successful draw has non-negative
coordinates, whatever the descriptor data, origin, text and callback. -/
theorem draw_callback_coords_nonneg {σ E : Type} (fd : FontDataInternal)
    (origin : Int × Int) (size : ℚ) (text : String) (trans : FontTransform)
    (f : σ → Int → Int → ℚ → σ × Except E Unit) (s0 : σ)
    (res : Except E Unit × List (CallEntry E))
    (h : fd.draw origin size text trans f s0 = Except.ok res) :
    ∀ e ∈ res.2, 0 ≤ e.x ∧ 0 ≤ e.y := by
  obtain ⟨s, hs⟩ := draw_invariant
    (fun st => ∀ e ∈ st.2.2, 0 ≤ e.x ∧ 0 ≤ e.y) f trans
    (fun base_x base_y x0 y0 st p hst =>
      drawPixelStep_coords_nonneg f trans base_x base_y x0 y0 st p hst)
    fd origin size text s0 (by intro e he; cases he) res h
  exact hs

/-- Witness for C2: the first invocation of a concrete draw over the
one-glyph font lands at (1, 0), which is non-negative. -/
theorem draw_callback_coords_nonneg_witness :
    0 ≤ (1 : Int) ∧ 0 ≤ (0 : Int) :=
  draw_callback_coords_nonneg inkFD (0, 0) 12 "a" FontTransform.None okCB ()
    (Except.ok (), [⟨1, 0, 1, Except.ok ()⟩, ⟨2, 1, 1, Except.ok ()⟩]) rfl
    ⟨1, 0, 1, Except.ok ()⟩ (List.mem_cons_self _ _)

/-- Invariant tying the recorded result to the invocation trace: every
invocation before the last succeeded; a success result means every invocation
succeeded; a failure result is the outcome of the last invocation. -/
def GoodTrace {E : Type} (r : Except E Unit) (tr : List (CallEntry E)) : Prop :=
  (∀ e ∈ tr.dropLast, e.outcome = Except.ok ()) ∧
  (r = Except.ok () → ∀ e ∈ tr, e.outcome = Except.ok ()) ∧
  (∀ err : E, r = Except.error err →
    ∃ last, tr.getLast? = some last ∧ last.outcome = Except.error err)

/-- The per-pixel step preserves `GoodTrace`: the guard suppresses the
callback once the recorded result is a failure, and a newly recorded result
is the outcome of the invocation just appended. -/
theorem drawPixelStep_good {σ E : Type}
    (f : σ → Int → Int → ℚ → σ × Except E Unit) (trans : FontTransform)
    (base_x base_y x0 y0 : Int)
    (st : σ × Except E Unit × List (CallEntry E)) (p : Nat × Nat × ℚ)
    (hst : GoodTrace st.2.1 st.2.2) :
    GoodTrace (drawPixelStep f trans base_x base_y x0 y0 st p).2.1
      (drawPixelStep f trans base_x base_y x0 y0 st p).2.2 := by
  simp only [drawPixelStep]
  split
  next hcond =>
    have hok : st.2.1 = Except.ok () := by
      rcases h21 : st.2.1 with err | u
      · rw [h21] at hcond
        simp [is_ok] at hcond
      · cases u; rfl
    have hall : ∀ e ∈ st.2.2, e.outcome = Except.ok () := hst.2.1 hok
    refine ⟨?_, ?_, ?_⟩
    · rw [List.dropLast_concat]
      exact hall
    · intro hr e he
      rcases List.mem_append.mp he with he | he
      · exact hall e he
      · rw [List.mem_singleton] at he
        subst he
        exact hr
    · intro err herr
      exact ⟨_, List.getLast?_concat _, herr⟩
  next => exact hst

/-- C3: when some invocation of a successful draw's callback failed, that
invocation is the last one in the trace (no further invocations occur),
every earlier invocation succeeded, and the inner result returned by draw is
exactly that failure value. -/
theorem draw_callback_failure_is_last {σ E : Type} (fd : FontDataInternal)
    (origin : Int × Int) (size : ℚ) (text : String) (trans : FontTransform)
    (f : σ → Int → Int → ℚ → σ × Except E Unit) (s0 : σ)
    (res : Except E Unit × List (CallEntry E))
    (h : fd.draw origin size text trans f s0 = Except.ok res)
    (e0 : CallEntry E) (he0 : e0 ∈ res.2) (err : E)
    (herr : e0.outcome = Except.error err) :
    res.1 = Except.error err ∧
    res.2.getLast? = some e0 ∧
    ∀ e ∈ res.2.dropLast, e.outcome = Except.ok () := by
  obtain ⟨s, hs⟩ := draw_invariant
    (fun st => GoodTrace st.2.1 st.2.2) f trans
    (fun base_x base_y x0 y0 st p hst =>
      drawPixelStep_good f trans base_x base_y x0 y0 st p hst)
    fd origin size text s0
    (by
      refine ⟨?_, ?_, ?_⟩
      · intro e he; cases he
      · intro _ e he; cases he
      · intro err0 herr0; cases herr0)
    res h
  have hgood : GoodTrace res.1 res.2 := hs
  rcases hres1 : res.1 with err' | u
  case ok =>
    cases u
    have hco := hgood.2.1 hres1 e0 he0
    rw [herr] at hco
    exact Except.noConfusion hco
  case error =>
    obtain ⟨last, hlast, hout⟩ := hgood.2.2 err' hres1
    have hne : res.2 ≠ [] := by
      intro hnil
      rw [hnil] at hlast
      cases hlast
    have hsplit := List.dropLast_append_getLast hne
    have hgl : res.2.getLast? = some (res.2.getLast hne) :=
      List.getLast?_eq_getLast_of_ne_nil hne
    rw [hgl] at hlast
    injection hlast with hlast
    have he0' := he0
    rw [← hsplit] at he0'
    rcases List.mem_append.mp he0' with hmem | hmem
    · have hco := hgood.1 e0 hmem
      rw [herr] at hco
      exact Except.noConfusion hco
    · rw [List.mem_singleton] at hmem
      have houtcome : e0.outcome = Except.error err' := by
        rw [hmem, hlast]
        exact hout
      rw [herr] at houtcome
      injection houtcome with heq
      exact ⟨by rw [heq], by rw [hgl, hmem], hgood.1⟩

/-- A callback that always fails with error code 7, with trivial state. -/
def failCB : Unit → Int → Int → ℚ → Unit × Except Nat Unit :=
  fun _ _ _ _ => ((), Except.error 7)

/-- Witness for C3: with the always-failing callback the concrete draw makes
exactly one invocation, whose failure is the returned inner result. -/
theorem draw_callback_failure_is_last_witness :
    (Except.error 7 : Except Nat Unit) = Except.error 7 ∧
    ([⟨1, 0, 1, Except.error 7⟩] : List (CallEntry Nat)).getLast? =
      some ⟨1, 0, 1, Except.error 7⟩ ∧
    ∀ e ∈ ([⟨1, 0, 1, Except.error 7⟩] : List (CallEntry Nat)).dropLast,
      e.outcome = Except.ok () :=
  draw_callback_failure_is_last inkFD (0, 0) 12 "a" FontTransform.None
    failCB () (Except.error 7, [⟨1, 0, 1, Except.error 7⟩]) rfl
    ⟨1, 0, 1, Except.error 7⟩ (List.mem_cons_self _ _) 7 rfl
